import Mathlib

/-!
# Verification of the hotel-review similarity service (`src/app.py`)

Shallow embedding of the core of `app.py`: the similarity engine
(`cosine_similarity`), the bounded LRU embedding cache
(`get_cached_embedding`, built on `functools.lru_cache(maxsize=100)`),
the canonical entity-text builder, and the two analysis operations
(`analyze_hotel_reviews` and the `custom_review` endpoint).

Modelling conventions:
* Machine floats are modelled by exact rationals.  The value produced by
  `np.dot(v, w) / (np.linalg.norm(v) * np.linalg.norm(w))` is the real
  number `dot v w / Real.sqrt (normSq v * normSq w)`; it is represented
  exactly by the constructor `SimVal.val (dot v w) (normSq v * normSq w)`,
  and the IEEE `nan` produced when the denominator is `0.0` is represented
  by `SimVal.nan`.  The float comparison `similarity < threshold` is the
  computable `simLt`, proved below to decide the exact real comparison
  (and, as in IEEE arithmetic, `nan < t` is `false`).
* The remote embedding provider (`get_embedding`, a network call) is an
  abstract parameter `p : String → List ℚ`.
* The process-wide `lru_cache` state is threaded explicitly as a
  `CacheState`; its `calls` field logs every provider invocation, in order.
* The environment-configured `SIMILARITY_THRESHOLD` is a parameter `t : ℚ`.
-/

deriving instance DecidableEq for Except

namespace HotelApp

/-- Exact representation of the float produced by the source's
`cosine_similarity`: `val d den` denotes the real number
`d / Real.sqrt den`, and `nan` is the IEEE NaN obtained when the
denominator `np.linalg.norm(vec1) * np.linalg.norm(vec2)` is zero. -/
inductive SimVal where
  | nan : SimVal
  | val : ℚ → ℚ → SimVal
  deriving DecidableEq, Repr

/-- `np.dot` on two equal-length 1-d arrays. -/
def dot (v w : List ℚ) : ℚ := (List.zipWith (fun a b => a * b) v w).sum

/-- The square of `np.linalg.norm v` (sum of squares of the entries). -/
def normSq (v : List ℚ) : ℚ := dot v v

/-- The error numpy raises from `np.dot` on 1-d arrays of different
lengths (a generic `ValueError: shapes not aligned`). -/
inductive NumpyError where
  | shapeMismatch : NumpyError
  deriving DecidableEq, Repr

/-- `cosine_similarity(vec1, vec2)` from `app.py` (lines 104-108):
`np.dot(vec1, vec2) / (np.linalg.norm(vec1) * np.linalg.norm(vec2))`.
`np.dot` raises on mismatched lengths (evaluated first, before the norms);
otherwise the division is performed: a zero denominator (which over the
reals forces a zero numerator, since a zero-norm vector is the zero
vector) yields NaN silently, and a nonzero denominator yields the exact
value `dot / sqrt (normSq vec1 * normSq vec2)`, using
`sqrt a * sqrt b = sqrt (a * b)`. -/
def cosine_similarity (vec1 vec2 : List ℚ) : Except NumpyError SimVal :=
  if vec1.length ≠ vec2.length then .error .shapeMismatch
  else if normSq vec1 * normSq vec2 = 0 then .ok .nan
  else .ok (.val (dot vec1 vec2) (normSq vec1 * normSq vec2))

/-- The float comparison `similarity < threshold` of the source, on the
exact representation: `nan < t` is `false` (IEEE), and for `val d den`
(denoting `d / sqrt den` with `den > 0` on every code path) it decides
the exact real comparison by sign analysis and squaring. -/
def simLt (s : SimVal) (t : ℚ) : Bool :=
  match s with
  | .nan => false
  | .val d den =>
    if 0 ≤ t then decide (d < 0) || decide (d ^ 2 < t ^ 2 * den)
    else decide (d < 0) && decide (t ^ 2 * den < d ^ 2)

/-! ## The embedding cache (`functools.lru_cache(maxsize=100)`) -/

/-- The cache capacity: `@lru_cache(maxsize=100)` at `app.py` line 98. -/
def CACHE_MAXSIZE : ℕ := 100

/-- The process-wide state of the memoized `get_cached_embedding`:
`entries` is the memo table in most-recently-used-first order, and
`calls` logs every invocation of the remote provider `get_embedding`,
oldest first. -/
structure CacheState where
  entries : List (String × List ℚ)
  calls : List String
  deriving DecidableEq, Repr

/-- The cache at process start: empty, no provider calls yet. -/
def initState : CacheState := ⟨[], []⟩

/-- `get_cached_embedding(text)` (`app.py` lines 98-101): on a hit the
memoized vector is returned and its entry becomes most recently used; on
a miss the provider is invoked, the result is memoized, and if the table
would exceed `CACHE_MAXSIZE` entries the least-recently-used (oldest
positioned) entry is dropped — the semantics of
`functools.lru_cache(maxsize=100)`. -/
def get_cached_embedding (p : String → List ℚ) (st : CacheState) (text : String) :
    List ℚ × CacheState :=
  match st.entries.find? (fun e => e.1 == text) with
  | some e =>
    (e.2, ⟨(text, e.2) :: st.entries.filter (fun e2 => !(e2.1 == text)), st.calls⟩)
  | none =>
    (p text, ⟨((text, p text) :: st.entries).take CACHE_MAXSIZE, st.calls ++ [text]⟩)

/-- Run a sequence of embedding requests against the cache, in order. -/
def runRequests (p : String → List ℚ) : CacheState → List String → CacheState
  | st, [] => st
  | st, u :: ts => runRequests p (get_cached_embedding p st u).2 ts

/-- Invariant carried through requests after `t` was first memoized: `t`
is in the memo table with the provider's vector, the provider has been
called exactly once for `t`, keys are distinct, and every entry more
recently used than `t` has a key in `S` different from `t`. -/
def CacheInv (p : String → List ℚ) (t : String) (S : Finset String) (st : CacheState) :
    Prop :=
  (st.entries.map Prod.fst).Nodup ∧
  st.calls.count t = 1 ∧
  ∃ front back, st.entries = front ++ (t, p t) :: back ∧
    ∀ e ∈ front, e.1 ≠ t ∧ e.1 ∈ S

/-! ## Data model and sample datasets (`app.py` lines 17-65) -/

/-- A hotel record: display name, free-text description, feature tags. -/
structure Hotel where
  name : String
  description : String
  features : List String
  deriving DecidableEq, Repr, Inhabited

/-- `HOTEL_DATA` from `app.py`, keyed by hotel id. -/
def HOTEL_DATA : List (String × Hotel) :=
  [("hotel_1",
    ⟨"Гранд Отель Москва",
     "Роскошный пятизвездочный отель в центре Москвы с видом на Кремль. Предлагает просторные номера с премиальной мебелью, ресторан высокой кухни, спа-центр и бассейн.",
     ["5 звезд", "Бассейн", "Спа", "Ресторан", "Вид на Кремль", "Центр города"]⟩),
   ("hotel_2",
    ⟨"Эконом Хостел Петербург",
     "Бюджетный хостел с общими номерами, расположенный недалеко от метро. Базовые удобства, общая кухня, Wi-Fi.",
     ["Бюджетный", "Общие номера", "Рядом с метро", "Wi-Fi", "Общая кухня"]⟩),
   ("hotel_3",
    ⟨"Бизнес Отель Сити",
     "Комфортабельный трехзвездочный отель для деловых путешественников. Конференц-залы, быстрый Wi-Fi, завтрак включен.",
     ["3 звезды", "Для бизнеса", "Конференц-залы", "Завтрак включен", "Быстрый Wi-Fi"]⟩)]

/-- `REVIEWS_DATASET` from `app.py`: the normal review set per hotel id. -/
def REVIEWS_DATASET : List (String × List String) :=
  [("hotel_1",
    ["Потрясающий отель! Шикарные номера, великолепный вид на Кремль. Персонал очень внимательный. Ресторан на высшем уровне, спа-процедуры превосходные.",
     "Люксовый отель с отличным расположением. Бассейн чистый, спа замечательное. Номера просторные и роскошные. Полностью оправдывает свои 5 звезд.",
     "Прекрасное место для отдыха! Все на высшем уровне - от номеров до обслуживания. Вид из окна потрясающий, завтраки отличные."]),
   ("hotel_2",
    ["Недорогой хостел с базовыми удобствами. Чисто, но очень шумно в общих номерах. Метро рядом, что удобно. За свои деньги нормально.",
     "Бюджетный вариант для ночлега. Кровати удобные, есть кухня. Интернет работает хорошо. Не ждите роскоши, но для экономных туристов подойдет.",
     "Простой хостел, все минимально. Чисто, есть Wi-Fi и общая кухня. Хорошее расположение возле метро. Цена соответствует качеству."]),
   ("hotel_3",
    ["Отличный отель для командировки. Хороший интернет, есть где провести встречу. Завтраки включены, номера чистые и комфортные.",
     "Удобно для деловых поездок. Конференц-залы оборудованы всем необходимым. Персонал профессиональный, Wi-Fi быстрый. Рекомендую для бизнеса.",
     "Комфортный отель для работы. Номера спокойные, есть рабочее место. Завтраки хорошие, интернет стабильный. Для деловых целей идеально."])]

/-- `ANOMALOUS_REVIEWS` from `app.py`: the anomalous review set per hotel id. -/
def ANOMALOUS_REVIEWS : List (String × List String) :=
  [("hotel_1",
    ["Очень дешево, но шумно. Общие номера не очень чистые. Для бюджетного варианта сойдет."]),
   ("hotel_2",
    ["Роскошные апартаменты, бассейн чистейший, персонал безупречен. Великолепный спа-центр!"]),
   ("hotel_3",
    ["Пляжный отдых удался! Море рядом, песочек чистый, коктейли у бассейна весь день."])]

/-! ## Entity text builder -/

/-- The f-string at `app.py` line 122 (inside `analyze_hotel_reviews`):
`f"{name}. {description} Особенности: {', '.join(features)}"`. -/
def hotel_text_analyze (h : Hotel) : String :=
  h.name ++ ". " ++ h.description ++ " Особенности: " ++ String.intercalate ", " h.features

/-- The duplicated f-string at `app.py` line 204 (inside `custom_review`):
textually the same template as line 122. -/
def hotel_text_custom (h : Hotel) : String :=
  h.name ++ ". " ++ h.description ++ " Особенности: " ++ String.intercalate ", " h.features

/-- The canonical-text template exactly as the spec words it (with the
label `Features:`), kept separate for refinement comparison against the
builders embedded from the source. -/
def specCanonicalText (h : Hotel) : String :=
  h.name ++ ". " ++ h.description ++ " Features: " ++ String.intercalate ", " h.features

/-! ## Analysis orchestrators -/

/-- One per-review line of the JSON result of `analyze_hotel_reviews`. -/
structure ReviewResult where
  review : String
  similarity : SimVal
  needs_check : Bool
  deriving DecidableEq, Repr

/-- The JSON payload returned by `analyze_hotel_reviews` on success. -/
structure AnalysisReport where
  hotel : Hotel
  hotel_text : String
  normal_reviews : List ReviewResult
  anomalous_reviews : List ReviewResult
  threshold : ℚ
  deriving DecidableEq, Repr

/-- The review loops of `analyze_hotel_reviews` (lines 131-139 and
145-153): for each review obtain its embedding via the cache, compute
the similarity against the hotel embedding, record
`needs_check = similarity < SIMILARITY_THRESHOLD`; an exception from
`cosine_similarity` aborts the loop and propagates (the cache keeps the
updates made so far). -/
def analyzeList (p : String → List ℚ) (threshold : ℚ) (hotelEmb : List ℚ) :
    List String → CacheState → Except NumpyError (List ReviewResult) × CacheState
  | [], st => (.ok [], st)
  | r :: rs, st =>
    let res := get_cached_embedding p st r
    match cosine_similarity hotelEmb res.1 with
    | .error e => (.error e, res.2)
    | .ok s =>
      match analyzeList p threshold hotelEmb rs res.2 with
      | (.ok results, st2) => (.ok (⟨r, s, simLt s threshold⟩ :: results), st2)
      | (.error e, st2) => (.error e, st2)

/-- `analyze_hotel_reviews(hotel_id)` (`app.py` lines 111-161).  Returns
`none` for an unknown hotel id (the route turns this into HTTP 404); a
propagated numpy exception is the `.error` case (the route turns it into
HTTP 500). -/
def analyze_hotel_reviews (p : String → List ℚ) (threshold : ℚ) (st : CacheState)
    (hotel_id : String) : Except NumpyError (Option AnalysisReport) × CacheState :=
  match List.lookup hotel_id HOTEL_DATA with
  | none => (.ok none, st)
  | some hotel =>
    let hotel_text := hotel_text_analyze hotel
    let he := get_cached_embedding p st hotel_text
    match analyzeList p threshold he.1 ((List.lookup hotel_id REVIEWS_DATASET).getD []) he.2 with
    | (.error e, st2) => (.error e, st2)
    | (.ok normal_results, st2) =>
      match analyzeList p threshold he.1
          ((List.lookup hotel_id ANOMALOUS_REVIEWS).getD []) st2 with
      | (.error e, st3) => (.error e, st3)
      | (.ok anomalous_results, st3) =>
        (.ok (some ⟨hotel, hotel_text, normal_results, anomalous_results, threshold⟩), st3)

/-- The JSON payload returned by the `custom_review` route on success. -/
structure CustomPayload where
  hotel : Hotel
  review : String
  similarity : SimVal
  needs_check : Bool
  threshold : ℚ
  deriving DecidableEq, Repr

/-- The response of the `custom_review` route: HTTP 400 for a missing
required field, HTTP 404 for an unknown hotel, HTTP 500 for a propagated
numpy error, otherwise the JSON payload. -/
inductive CustomResponse where
  | badRequest : CustomResponse
  | notFound : CustomResponse
  | serverError : NumpyError → CustomResponse
  | ok : CustomPayload → CustomResponse
  deriving DecidableEq, Repr

/-- Python falsiness of an optional JSON string field (`not value` in
`app.py` line 197): the field is missing (`None`) or the empty string. -/
def falsy : Option String → Bool
  | none => true
  | some s => s.isEmpty

/-- `custom_review()` (`app.py` lines 189-222): validate the two request
fields, resolve the hotel, embed hotel text and review text via the
cache, compute the similarity and the threshold decision. -/
def custom_review (p : String → List ℚ) (threshold : ℚ) (st : CacheState)
    (hotel_id review_text : Option String) : CustomResponse × CacheState :=
  if falsy hotel_id || falsy review_text then (.badRequest, st)
  else
    match List.lookup (hotel_id.getD "") HOTEL_DATA with
    | none => (.notFound, st)
    | some hotel =>
      let hotel_text := hotel_text_custom hotel
      let he := get_cached_embedding p st hotel_text
      let re := get_cached_embedding p he.2 (review_text.getD "")
      match cosine_similarity he.1 re.1 with
      | .error e => (.serverError e, re.2)
      | .ok s =>
        (.ok ⟨hotel, review_text.getD "", s, simLt s threshold, threshold⟩, re.2)

/-! ## Support lemmas about the orchestrators -/

/-- Cache well-formedness: every memoized vector is the provider's
output for its key (true of every reachable state, since only
provider results are ever stored). -/
def CacheWF (p : String → List ℚ) (st : CacheState) : Prop :=
  ∀ e ∈ st.entries, e.2 = p e.1

/-- Does a per-review result record `needs_check` equal to the threshold
comparison of its own recorded similarity?  Checked over all results of
a report against the report's own recorded threshold. -/
def reportConsistent (rep : AnalysisReport) : Bool :=
  (rep.normal_reviews ++ rep.anomalous_reviews).all
    fun x => x.needs_check == simLt x.similarity rep.threshold

/-- `reportConsistent` lifted to the possible outcomes of
`analyze_hotel_reviews` (vacuous on not-found and on error). -/
def analyzeReportConsistent : Except NumpyError (Option AnalysisReport) → Bool
  | .ok (some rep) => reportConsistent rep
  | _ => true

/-- The `needs_check`/`similarity`/`threshold` consistency of a
`custom_review` response (vacuous on non-success responses). -/
def customConsistent : CustomResponse → Bool
  | .ok pl => pl.needs_check == simLt pl.similarity pl.threshold
  | _ => true

/-- Extract the successful report from a result of
`analyze_hotel_reviews`, if any. -/
def reportOf (x : Except NumpyError (Option AnalysisReport) × CacheState) :
    Option AnalysisReport :=
  match x.1 with
  | .ok o => o
  | .error _ => none

/-! ## Theorems -/

theorem simLt_iff_real (d den t : ℚ) (hden : 0 < den) :
    simLt (SimVal.val d den) t = true ↔ (d : ℝ) / Real.sqrt (den : ℚ) < (t : ℚ) := by
  have hden' : (0 : ℝ) < (den : ℚ) := by exact_mod_cast hden
  have hs : (0 : ℝ) < Real.sqrt (den : ℚ) := Real.sqrt_pos.mpr hden'
  have hsq : Real.sqrt (den : ℚ) ^ 2 = ((den : ℚ) : ℝ) := Real.sq_sqrt hden'.le
  rw [div_lt_iff₀ hs]
  unfold simLt
  by_cases ht : (0 : ℚ) ≤ t
  · have ht' : (0 : ℝ) ≤ (t : ℚ) := by exact_mod_cast ht
    simp only [ht, if_true, Bool.or_eq_true, decide_eq_true_eq]
    constructor
    · rintro (hd | hd)
      · have hd' : ((d : ℚ) : ℝ) < 0 := by exact_mod_cast hd
        exact lt_of_lt_of_le hd' (mul_nonneg ht' hs.le)
      · have hd' : ((d : ℚ) : ℝ) ^ 2 < ((t : ℚ) : ℝ) ^ 2 * ((den : ℚ) : ℝ) := by
          exact_mod_cast hd
        nlinarith [hs, hsq, mul_nonneg ht' hs.le]
    · intro h
      by_cases hd : d < 0
      · exact Or.inl hd
      · refine Or.inr ?_
        have hd' : (0 : ℝ) ≤ ((d : ℚ) : ℝ) := by exact_mod_cast not_lt.mp hd
        have : ((d : ℚ) : ℝ) ^ 2 < ((t : ℚ) : ℝ) ^ 2 * ((den : ℚ) : ℝ) := by
          nlinarith [hsq, hs]
        exact_mod_cast this
  · have ht' : ((t : ℚ) : ℝ) < 0 := by exact_mod_cast not_le.mp ht
    simp only [ht, if_false, Bool.and_eq_true, decide_eq_true_eq]
    constructor
    · rintro ⟨hd, hsqlt⟩
      have hd' : ((d : ℚ) : ℝ) < 0 := by exact_mod_cast hd
      have hsqlt' : ((t : ℚ) : ℝ) ^ 2 * ((den : ℚ) : ℝ) < ((d : ℚ) : ℝ) ^ 2 := by
        exact_mod_cast hsqlt
      nlinarith [hs, hsq, mul_neg_of_neg_of_pos ht' hs]
    · intro h
      have htr : ((t : ℚ) : ℝ) * Real.sqrt (den : ℚ) < 0 := mul_neg_of_neg_of_pos ht' hs
      have hd' : ((d : ℚ) : ℝ) < 0 := lt_trans h htr
      constructor
      · exact_mod_cast hd'
      · have : ((t : ℚ) : ℝ) ^ 2 * ((den : ℚ) : ℝ) < ((d : ℚ) : ℝ) ^ 2 := by
          nlinarith [hs, hsq]
        exact_mod_cast this

/-- If the exact similarity value equals the threshold, `simLt` is
`false` (the boundary case of `similarity < threshold`). -/
theorem simLt_eq_false_of_eq (d den t : ℚ) (hden : 0 < den)
    (h : (d : ℝ) / Real.sqrt (den : ℚ) = (t : ℚ)) :
    simLt (SimVal.val d den) t = false := by
  have := simLt_iff_real d den t hden
  rw [h] at this
  simp only [lt_self_iff_false, iff_false] at this
  exact Bool.eq_false_iff.mpr (by simpa using this)

theorem dot_comm (v w : List ℚ) : dot v w = dot w v := by
  unfold dot
  rw [List.zipWith_comm_of_comm (fun a b => a * b) mul_comm]

theorem runRequests_append (p : String → List ℚ) (st : CacheState) (l1 l2 : List String) :
    runRequests p st (l1 ++ l2) = runRequests p (runRequests p st l1) l2 := by
  induction l1 generalizing st with
  | nil => simp [runRequests]
  | cons u ts ih => simp [runRequests, ih]

theorem length_filter_lt_of_mem {α : Type} (l : List α) (f : α → Bool) (a : α)
    (ha : a ∈ l) (hfa : f a = false) : (l.filter f).length < l.length := by
  induction l with
  | nil => cases ha
  | cons b l ih =>
    rcases List.mem_cons.mp ha with rfl | hb
    · rw [List.filter_cons, hfa]
      exact Nat.lt_succ_of_le (List.length_filter_le f l)
    · rw [List.filter_cons]
      cases hfb : f b
      · exact Nat.lt_succ_of_le (Nat.le_of_lt (ih hb))
      · simpa using Nat.succ_lt_succ (ih hb)

/-- The memo table never exceeds the configured capacity. -/
theorem entries_length_get_le (p : String → List ℚ) (st : CacheState) (text : String)
    (h : st.entries.length ≤ CACHE_MAXSIZE) :
    (get_cached_embedding p st text).2.entries.length ≤ CACHE_MAXSIZE := by
  unfold get_cached_embedding
  cases hf : st.entries.find? (fun e => e.1 == text) with
  | none => simp
  | some e =>
    have he : e ∈ st.entries := List.mem_of_find?_eq_some hf
    have hpe : (e.1 == text) = true := by have h2 := List.find?_some hf; simpa using h2
    have : (st.entries.filter (fun e2 => !(e2.1 == text))).length < st.entries.length :=
      length_filter_lt_of_mem st.entries _ e he (by simp [hpe])
    simpa using Nat.le_trans (Nat.succ_le_of_lt this) h

theorem entries_length_runRequests_le (p : String → List ℚ) (ts : List String)
    (st : CacheState) (h : st.entries.length ≤ CACHE_MAXSIZE) :
    (runRequests p st ts).entries.length ≤ CACHE_MAXSIZE := by
  induction ts generalizing st with
  | nil => simpa [runRequests] using h
  | cons u ts ih => exact ih _ (entries_length_get_le p st u h)

/-- Cache keys after a request are among the old keys and the requested text. -/
theorem keys_get_subset (p : String → List ℚ) (st : CacheState) (u : String) (k : String)
    (hk : k ∈ (get_cached_embedding p st u).2.entries.map Prod.fst) :
    k ∈ st.entries.map Prod.fst ∨ k = u := by
  unfold get_cached_embedding at hk
  cases hf : st.entries.find? (fun e => e.1 == u) <;> rw [hf] at hk
  · simp only [List.map_take] at hk
    have hk' := List.mem_of_mem_take hk
    rcases List.mem_cons.mp hk' with rfl | h
    · exact Or.inr rfl
    · exact Or.inl h
  · simp only [List.map_cons] at hk
    rcases List.mem_cons.mp hk with rfl | h
    · exact Or.inr rfl
    · rcases List.mem_map.mp h with ⟨e, he, rfl⟩
      exact Or.inl (List.mem_map.mpr ⟨e, List.mem_of_mem_filter he, rfl⟩)

theorem keys_runRequests_subset (p : String → List ℚ) (ts : List String) (st : CacheState)
    (k : String) (hk : k ∈ (runRequests p st ts).entries.map Prod.fst) :
    k ∈ st.entries.map Prod.fst ∨ k ∈ ts := by
  induction ts generalizing st with
  | nil => exact Or.inl (by simpa [runRequests] using hk)
  | cons u ts ih =>
    rcases ih _ (by simpa [runRequests] using hk) with h | h
    · rcases keys_get_subset p st u k h with h' | rfl
      · exact Or.inl h'
      · exact Or.inr (by simp)
    · exact Or.inr (List.mem_cons_of_mem u h)

/-- Keys of the memo table stay distinct. -/
theorem nodup_keys_get (p : String → List ℚ) (st : CacheState) (u : String)
    (h : (st.entries.map Prod.fst).Nodup) :
    ((get_cached_embedding p st u).2.entries.map Prod.fst).Nodup := by
  unfold get_cached_embedding
  cases hf : st.entries.find? (fun e => e.1 == u) with
  | none =>
    have hu : u ∉ st.entries.map Prod.fst := by
      intro hu
      rcases List.mem_map.mp hu with ⟨e, he, rfl⟩
      have := List.find?_eq_none.mp hf e he
      simp at this
    simp only [List.map_take, List.map_cons]
    exact List.Nodup.sublist (List.take_sublist _ _) (List.Nodup.cons hu h)
  | some e =>
    simp only [List.map_cons]
    refine List.Nodup.cons ?_ ?_
    · intro hu
      rcases List.mem_map.mp hu with ⟨e2, he2, rfl⟩
      have := (List.mem_filter.mp he2).2
      simp at this
    · exact h.sublist ((List.filter_sublist _).map Prod.fst)

theorem nodup_keys_runRequests (p : String → List ℚ) (ts : List String) (st : CacheState)
    (h : (st.entries.map Prod.fst).Nodup) :
    ((runRequests p st ts).entries.map Prod.fst).Nodup := by
  induction ts generalizing st with
  | nil => exact h
  | cons u ts ih => exact ih _ (nodup_keys_get p st u h)

theorem calls_get (p : String → List ℚ) (st : CacheState) (u : String) :
    (get_cached_embedding p st u).2.calls = st.calls ∨
    (get_cached_embedding p st u).2.calls = st.calls ++ [u] := by
  unfold get_cached_embedding
  cases hf : st.entries.find? (fun e => e.1 == u)
  · exact Or.inr rfl
  · exact Or.inl rfl

theorem count_calls_runRequests (p : String → List ℚ) (ts : List String) (st : CacheState)
    (t : String) (h : t ∉ ts) :
    (runRequests p st ts).calls.count t = st.calls.count t := by
  induction ts generalizing st with
  | nil => rfl
  | cons u ts ih =>
    have hu : t ≠ u := fun he => h (he ▸ List.mem_cons_self u ts)
    have ht : t ∉ ts := fun ht => h (List.mem_cons_of_mem u ht)
    rw [runRequests, ih _ ht]
    rcases calls_get p st u with hc | hc <;> rw [hc]
    rw [List.count_append]
    simp [List.count_cons, hu]

theorem find?_key_append (front : List (String × List ℚ)) (x : String × List ℚ)
    (back : List (String × List ℚ)) (t : String) (hx : x.1 = t)
    (hfront : ∀ e ∈ front, e.1 ≠ t) :
    (front ++ x :: back).find? (fun e => e.1 == t) = some x := by
  induction front with
  | nil => simp [hx]
  | cons a l ih =>
    have ha : a.1 ≠ t := (hfront a (by simp)).imp id
    rw [List.cons_append, List.find?_cons_of_neg _ (by simpa using ha)]
    exact ih fun e he => hfront e (List.mem_cons_of_mem a he)

/-- A cache hit on a key `t` already memoized with value `p t`: the
stored vector is returned and no provider call is made. -/
theorem get_at_memoized (p : String → List ℚ) (st : CacheState) (t : String)
    (front back : List (String × List ℚ)) (hdec : st.entries = front ++ (t, p t) :: back)
    (hfront : ∀ e ∈ front, e.1 ≠ t) :
    (get_cached_embedding p st t).1 = p t ∧
    (get_cached_embedding p st t).2.calls = st.calls := by
  unfold get_cached_embedding
  rw [hdec, find?_key_append front _ back t rfl hfront]
  exact ⟨rfl, rfl⟩

theorem cacheInv_get (p : String → List ℚ) (t : String) (S : Finset String) (u : String)
    (st : CacheState) (hS : S.card ≤ 99) (hu : u ≠ t → u ∈ S)
    (hinv : CacheInv p t S st) :
    CacheInv p t S (get_cached_embedding p st u).2 := by
  obtain ⟨hnd, hct, front, back, hdec, hfront⟩ := hinv
  have hnd' := nodup_keys_get p st u hnd
  by_cases hut : u = t
  · subst hut
    have hfind : st.entries.find? (fun e => e.1 == u) = some (u, p u) := by
      rw [hdec]; exact find?_key_append front _ back u rfl fun e he => (hfront e he).1
    have hstep : (get_cached_embedding p st u).2 =
        ⟨(u, p u) :: st.entries.filter (fun e2 => !(e2.1 == u)), st.calls⟩ := by
      unfold get_cached_embedding
      rw [hfind]
    rw [hstep]
    refine ⟨?_, by simpa using hct, [], st.entries.filter (fun e2 => !(e2.1 == u)),
      by simp, ?_⟩
    · have := nodup_keys_get p st u hnd
      rw [hstep] at this
      exact this
    · intro e he
      simp at he
  · cases hf : st.entries.find? (fun e => e.1 == u) with
    | some e =>
      have he1 : e.1 = u := by have h2 := List.find?_some hf; simpa using h2
      have hstep : (get_cached_embedding p st u).2 =
          ⟨(u, e.2) :: st.entries.filter (fun e2 => !(e2.1 == u)), st.calls⟩ := by
        unfold get_cached_embedding
        rw [hf]
      rw [hstep]
      refine ⟨?_, by simpa using hct, (u, e.2) :: front.filter (fun e2 => !(e2.1 == u)),
        back.filter (fun e2 => !(e2.1 == u)), ?_, ?_⟩
      · have := nodup_keys_get p st u hnd
        rw [hstep] at this
        exact this
      · simp only [hdec, List.filter_append, List.filter_cons]
        have : (!((t, p t).1 == u)) = true := by simpa using fun he => hut he.symm
        rw [this]
        simp
      · intro e2 he2
        rcases List.mem_cons.mp he2 with rfl | h
        · exact ⟨hut, hu hut⟩
        · exact hfront e2 (List.mem_of_mem_filter h)
    | none =>
      have hnotmem : u ∉ st.entries.map Prod.fst := by
        intro hm
        rcases List.mem_map.mp hm with ⟨e, he, rfl⟩
        have := List.find?_eq_none.mp hf e he
        simp at this
      have hfrontnd : (front.map Prod.fst).Nodup := by
        rw [hdec] at hnd
        simp only [List.map_append] at hnd
        exact hnd.of_append_left
      have hfrontsub : ∀ k ∈ front.map Prod.fst, k ∈ S.erase u := by
        intro k hk
        rcases List.mem_map.mp hk with ⟨e, he, rfl⟩
        refine Finset.mem_erase.mpr ⟨?_, (hfront e he).2⟩
        intro hek
        exact hnotmem (hdec ▸ List.mem_map.mpr ⟨e, by simp [he], hek⟩)
      have hlen : front.length ≤ 98 := by
        have h1 : front.length = (front.map Prod.fst).length := (List.length_map _ _).symm
        have h2 : (front.map Prod.fst).length = (front.map Prod.fst).toFinset.card :=
          (List.toFinset_card_of_nodup hfrontnd).symm
        have h3 : (front.map Prod.fst).toFinset ⊆ S.erase u := by
          intro k hk
          exact hfrontsub k (List.mem_toFinset.mp hk)
        have h4 : (S.erase u).card ≤ 98 := by
          rw [Finset.card_erase_of_mem (hu hut)]
          omega
        have := Finset.card_le_card h3
        omega
      have hstep : (get_cached_embedding p st u).2 =
          ⟨((u, p u) :: st.entries).take CACHE_MAXSIZE, st.calls ++ [u]⟩ := by
        unfold get_cached_embedding
        rw [hf]
      rw [hstep]
      refine ⟨?_, ?_, (u, p u) :: front, back.take (98 - front.length), ?_, ?_⟩
      · have := nodup_keys_get p st u hnd
        rw [hstep] at this
        exact this
      · rw [List.count_append]
        have hcnt : List.count t [u] = 0 := by
          refine List.count_eq_zero_of_not_mem ?_
          simp only [List.mem_singleton]
          exact fun he => hut he.symm
        omega
      · have harith : CACHE_MAXSIZE - ((u, p u) :: front).length = (98 - front.length) + 1 := by
          simp only [List.length_cons, CACHE_MAXSIZE]
          omega
        calc ((u, p u) :: st.entries).take CACHE_MAXSIZE
            = (((u, p u) :: front) ++ (t, p t) :: back).take CACHE_MAXSIZE := by
              rw [hdec]; simp
          _ = ((u, p u) :: front) ++ ((t, p t) :: back).take (98 - front.length + 1) := by
              rw [List.take_append_eq_append_take, harith, List.take_of_length_le]
              simp only [List.length_cons, CACHE_MAXSIZE]
              omega
          _ = ((u, p u) :: front) ++ (t, p t) :: back.take (98 - front.length) := by
              rw [List.take_succ_cons]
      · intro e2 he2
        rcases List.mem_cons.mp he2 with rfl | h
        · exact ⟨hut, hu hut⟩
        · exact hfront e2 h

theorem cacheInv_runRequests (p : String → List ℚ) (t : String) (S : Finset String)
    (hS : S.card ≤ 99) (ts : List String) (st : CacheState)
    (hts : ∀ u ∈ ts, u ≠ t → u ∈ S) (hinv : CacheInv p t S st) :
    CacheInv p t S (runRequests p st ts) := by
  induction ts generalizing st with
  | nil => exact hinv
  | cons u ts ih =>
    exact ih _ (fun v hv => hts v (by simp [hv]))
      (cacheInv_get p t S u st hS (hts u (by simp)) hinv)

theorem cacheInv_establish (p : String → List ℚ) (t : String) (S : Finset String)
    (s1 : List String) (h1 : t ∉ s1) :
    CacheInv p t S (runRequests p initState (s1 ++ [t])) := by
  rw [runRequests_append]
  have hnd : ((runRequests p initState s1).entries.map Prod.fst).Nodup :=
    nodup_keys_runRequests p s1 initState (by simp [initState])
  have hmem : t ∉ (runRequests p initState s1).entries.map Prod.fst := by
    intro h
    rcases keys_runRequests_subset p s1 initState t h with h | h
    · simp [initState] at h
    · exact h1 h
  have hcount : (runRequests p initState s1).calls.count t = 0 := by
    rw [count_calls_runRequests p s1 initState t h1]
    simp [initState]
  have hfind : (runRequests p initState s1).entries.find? (fun e => e.1 == t) = none := by
    refine List.find?_eq_none.mpr fun e he hbe => ?_
    exact hmem (List.mem_map.mpr ⟨e, he, by simpa using hbe⟩)
  show CacheInv p t S (runRequests p _ [t])
  rw [runRequests, runRequests]
  have hstep : (get_cached_embedding p (runRequests p initState s1) t).2 =
      ⟨((t, p t) :: (runRequests p initState s1).entries).take CACHE_MAXSIZE,
        (runRequests p initState s1).calls ++ [t]⟩ := by
    unfold get_cached_embedding
    rw [hfind]
  rw [hstep]
  refine ⟨?_, ?_, [], ((runRequests p initState s1).entries).take 99, ?_, ?_⟩
  · have := nodup_keys_get p (runRequests p initState s1) t hnd
    rw [hstep] at this
    exact this
  · rw [List.count_append, hcount]
    simp
  · show List.take CACHE_MAXSIZE _ = _
    have : CACHE_MAXSIZE = 99 + 1 := by simp [CACHE_MAXSIZE]
    rw [this, List.take_succ_cons]
    simp
  · intro e he
    simp at he

theorem cacheWF_init (p : String → List ℚ) : CacheWF p initState := by
  intro e he
  simp [initState] at he

theorem cacheWF_get (p : String → List ℚ) (st : CacheState) (u : String)
    (h : CacheWF p st) : CacheWF p (get_cached_embedding p st u).2 := by
  unfold get_cached_embedding
  cases hf : st.entries.find? (fun e => e.1 == u) with
  | none =>
    intro e he
    simp only at he
    rcases List.mem_cons.mp (List.mem_of_mem_take he) with rfl | he'
    · rfl
    · exact h e he'
  | some e0 =>
    intro e he
    simp only at he
    rcases List.mem_cons.mp he with rfl | he'
    · have he0 : e0 ∈ st.entries := List.mem_of_find?_eq_some hf
      have he1 : e0.1 = u := by have h2 := List.find?_some hf; simpa using h2
      simpa [he1] using h e0 he0
    · exact h e (List.mem_of_mem_filter he')

/-- On a well-formed cache, a request always returns the provider's
vector for the requested text (whether hit or miss). -/
theorem get_cached_embedding_val (p : String → List ℚ) (st : CacheState) (u : String)
    (h : CacheWF p st) : (get_cached_embedding p st u).1 = p u := by
  unfold get_cached_embedding
  cases hf : st.entries.find? (fun e => e.1 == u) with
  | none => rfl
  | some e0 =>
    have he0 : e0 ∈ st.entries := List.mem_of_find?_eq_some hf
    have he1 : e0.1 = u := by have h2 := List.find?_some hf; simpa using h2
    simpa [he1] using h e0 he0

theorem cosine_ok_of_length_eq (v w : List ℚ) (h : v.length = w.length) :
    ∃ s, cosine_similarity v w = .ok s := by
  unfold cosine_similarity
  rw [if_neg (by simp [h])]
  by_cases h0 : normSq v * normSq w = 0
  · exact ⟨.nan, by rw [if_pos h0]⟩
  · exact ⟨.val (dot v w) (normSq v * normSq w), by rw [if_neg h0]⟩

/-- Every result produced by the review loop records
`needs_check = simLt similarity threshold` for its own similarity. -/
theorem analyzeList_needs_check (p : String → List ℚ) (threshold : ℚ) (hotelEmb : List ℚ)
    (rs : List String) (st : CacheState) (results : List ReviewResult) (st2 : CacheState)
    (h : analyzeList p threshold hotelEmb rs st = (.ok results, st2)) :
    ∀ x ∈ results, x.needs_check = simLt x.similarity threshold := by
  induction rs generalizing st results st2 with
  | nil =>
    simp only [analyzeList, Prod.mk.injEq] at h
    rcases h with ⟨h1, _⟩
    cases h1
    intro x hx
    simp at hx
  | cons r rs ih =>
    simp only [analyzeList] at h
    cases hc : cosine_similarity hotelEmb (get_cached_embedding p st r).1 with
    | error e => rw [hc] at h; simp at h
    | ok s =>
      rw [hc] at h
      cases hrec : analyzeList p threshold hotelEmb rs (get_cached_embedding p st r).2 with
      | mk exr st3 =>
        cases exr with
        | error e => rw [hrec] at h; simp at h
        | ok results0 =>
          rw [hrec] at h
          simp only [Prod.mk.injEq] at h
          rcases h with ⟨h1, h2⟩
          cases h1
          intro x hx
          rcases List.mem_cons.mp hx with rfl | hx'
          · rfl
          · exact ih _ _ _ (by rw [hrec, h2]) x hx'

/-- On a well-formed cache, with a provider of fixed output dimension,
the review loop succeeds, reproduces the input reviews in order, and
preserves well-formedness. -/
theorem analyzeList_ok (p : String → List ℚ) (threshold : ℚ) (hotelEmb : List ℚ)
    (rs : List String) (st : CacheState) (hwf : CacheWF p st)
    (hdim : ∀ r ∈ rs, (p r).length = hotelEmb.length) :
    ∃ results st2, analyzeList p threshold hotelEmb rs st = (.ok results, st2) ∧
      results.map ReviewResult.review = rs ∧ CacheWF p st2 := by
  induction rs generalizing st with
  | nil => exact ⟨[], st, rfl, rfl, hwf⟩
  | cons r rs ih =>
    have hv : (get_cached_embedding p st r).1 = p r := get_cached_embedding_val p st r hwf
    have hwf1 : CacheWF p (get_cached_embedding p st r).2 := cacheWF_get p st r hwf
    obtain ⟨s, hs⟩ : ∃ s, cosine_similarity hotelEmb (get_cached_embedding p st r).1 = .ok s := by
      refine cosine_ok_of_length_eq _ _ ?_
      rw [hv, hdim r (by simp)]
    obtain ⟨results, st2, hrec, hmap, hwf2⟩ :=
      ih (get_cached_embedding p st r).2 hwf1 fun r2 hr2 => hdim r2 (by simp [hr2])
    refine ⟨⟨r, s, simLt s threshold⟩ :: results, st2, ?_, by simp [hmap], hwf2⟩
    simp only [analyzeList]
    rw [hs, hrec]

theorem analyze_needs_check_consistent (p : String → List ℚ) (threshold : ℚ)
    (st : CacheState) (hid : String) :
    analyzeReportConsistent (analyze_hotel_reviews p threshold st hid).1 = true := by
  unfold analyze_hotel_reviews
  cases List.lookup hid HOTEL_DATA with
  | none => rfl
  | some hotel =>
    simp only
    rcases hN : analyzeList p threshold
        (get_cached_embedding p st (hotel_text_analyze hotel)).1
        ((List.lookup hid REVIEWS_DATASET).getD [])
        (get_cached_embedding p st (hotel_text_analyze hotel)).2 with ⟨exn, stn⟩
    cases exn with
    | error e => simp only [hN]; rfl
    | ok rn =>
      rcases hA : analyzeList p threshold
          (get_cached_embedding p st (hotel_text_analyze hotel)).1
          ((List.lookup hid ANOMALOUS_REVIEWS).getD []) stn with ⟨exa, sta⟩
      cases exa with
      | error e => simp only [hN, hA]; rfl
      | ok ra =>
        simp only [hN, hA, analyzeReportConsistent, reportConsistent, List.all_eq_true]
        intro x hx
        rcases List.mem_append.mp hx with hx' | hx'
        · rw [analyzeList_needs_check _ _ _ _ _ _ _ hN x hx']
          simp
        · rw [analyzeList_needs_check _ _ _ _ _ _ _ hA x hx']
          simp

theorem custom_needs_check_consistent (p : String → List ℚ) (threshold : ℚ)
    (st : CacheState) (hid rt : Option String) :
    customConsistent (custom_review p threshold st hid rt).1 = true := by
  unfold custom_review
  by_cases hreq : (falsy hid || falsy rt) = true
  · rw [if_pos hreq]
    rfl
  · rw [if_neg hreq]
    cases List.lookup (hid.getD "") HOTEL_DATA with
    | none => rfl
    | some hotel =>
      simp only
      cases cosine_similarity
          (get_cached_embedding p st (hotel_text_custom hotel)).1
          (get_cached_embedding p
            (get_cached_embedding p st (hotel_text_custom hotel)).2 (rt.getD "")).1 with
      | error e => rfl
      | ok s => simp [customConsistent]

/-! ## The claims -/

/-- C1, counterexample: `cosine_similarity` on two zero-norm vectors
does not raise any error — it silently produces NaN (the division
`0.0 / 0.0`), contradicting the claim that a zero-norm input raises a
`DegenerateVectorError` instead of producing NaN. -/
theorem zero_norm_silently_nan :
    cosine_similarity [(0 : ℚ), 0, 0] [0, 0, 0] = .ok .nan := by
  norm_num [cosine_similarity, normSq, dot]

/-- C1 (amended): `cosine_similarity` performs no precondition check of
its own.  Mismatched-length vectors make the underlying array library
raise a generic shape error (numpy `ValueError`, not a dedicated
`DimensionMismatchError`), and a zero-norm vector raises nothing: the
division silently evaluates to NaN. -/
theorem cosine_similarity_error_behavior (v w : List ℚ) :
    (v.length ≠ w.length → cosine_similarity v w = .error .shapeMismatch) ∧
    (v.length = w.length → normSq v * normSq w = 0 → cosine_similarity v w = .ok .nan) := by
  constructor
  · intro h
    unfold cosine_similarity
    rw [if_pos h]
  · intro h1 h2
    unfold cosine_similarity
    rw [if_neg (by simp [h1]), if_pos h2]

/-- Witness for C1 (amended) at concrete inputs. -/
theorem cosine_similarity_error_behavior_witness :
    cosine_similarity [(1 : ℚ)] [1, 0] = .error .shapeMismatch ∧
    cosine_similarity [(0 : ℚ)] [0] = .ok .nan := by
  constructor
  · exact (cosine_similarity_error_behavior [(1 : ℚ)] [1, 0]).1 (by decide)
  · exact (cosine_similarity_error_behavior [(0 : ℚ)] [0]).2 (by decide)
      (by norm_num [normSq, dot])

/-- C2: in every analysed review (batch or custom) the recorded
`needs_check` flag equals the float comparison
`similarity < threshold` of the recorded similarity against the
recorded threshold; `simLt` decides exactly the real comparison
(so in the boundary case `similarity = threshold` the flag is false). -/
theorem needs_check_iff_below_threshold :
    (∀ (p : String → List ℚ) (threshold : ℚ) (st : CacheState) (hid : String),
      analyzeReportConsistent (analyze_hotel_reviews p threshold st hid).1 = true) ∧
    (∀ (p : String → List ℚ) (threshold : ℚ) (st : CacheState) (hid rt : Option String),
      customConsistent (custom_review p threshold st hid rt).1 = true) ∧
    (∀ d den tq : ℚ, 0 < den →
      (simLt (SimVal.val d den) tq = true ↔ (d : ℝ) / Real.sqrt (den : ℚ) < (tq : ℚ))) ∧
    (∀ d den tq : ℚ, 0 < den → (d : ℝ) / Real.sqrt (den : ℚ) = (tq : ℚ) →
      simLt (SimVal.val d den) tq = false) := by
  refine ⟨analyze_needs_check_consistent, custom_needs_check_consistent, simLt_iff_real, ?_⟩
  exact simLt_eq_false_of_eq

/-- Witness for C2 at concrete inputs, including the boundary case
`similarity = threshold = 3/4`. -/
theorem needs_check_iff_below_threshold_witness :
    (simLt (SimVal.val 0 1) (3 / 4) = true ↔
      ((0 : ℚ) : ℝ) / Real.sqrt (((1 : ℚ) : ℝ)) < (((3 / 4 : ℚ)) : ℝ)) ∧
    simLt (SimVal.val (3 / 4) 1) (3 / 4) = false := by
  constructor
  · exact needs_check_iff_below_threshold.2.2.1 0 1 (3 / 4) (by norm_num)
  · exact needs_check_iff_below_threshold.2.2.2 (3 / 4) 1 (3 / 4) (by norm_num)
      (by rw [Rat.cast_one, Real.sqrt_one, div_one])

/-- C3, counterexample: the canonical text built by the code labels the
feature list `Особенности:`, not `Features:` as the spec's template
states, so the built string differs from the spec template already on a
one-feature entity. -/
theorem hotel_text_label_differs_from_spec :
    hotel_text_analyze ⟨"A", "B", ["C"]⟩ ≠ specCanonicalText ⟨"A", "B", ["C"]⟩ := by
  decide

/-- C3 (amended): the canonical text equals the template
`"{name}. {description} Особенности: {comma-joined features}"` (the
label is the Russian `Особенности:`, not `Features:`), building is
deterministic, and the batch and custom-review operations build the
identical string for the same entity (their two duplicated f-strings
agree). -/
theorem hotel_text_deterministic_and_shared (h : Hotel) :
    hotel_text_analyze h = hotel_text_custom h ∧
    hotel_text_analyze h =
      h.name ++ ". " ++ h.description ++ " Особенности: " ++
        String.intercalate ", " h.features :=
  ⟨rfl, rfl⟩

/-- C4: if fewer than 100 distinct texts are requested after `t` is
first embedded, a further request for `t` is a cache hit: it returns
the provider's vector for `t`, makes no provider call, and the provider
has been called exactly once for `t` in the whole run. -/
theorem lru_repeated_request_single_call (p : String → List ℚ) (s1 s2 : List String)
    (t : String) (h1 : t ∉ s1) (h2 : s2.dedup.length < 100) :
    (get_cached_embedding p (runRequests p initState (s1 ++ t :: s2)) t).1 = p t ∧
    (get_cached_embedding p (runRequests p initState (s1 ++ t :: s2)) t).2.calls
      = (runRequests p initState (s1 ++ t :: s2)).calls ∧
    (runRequests p initState (s1 ++ t :: s2)).calls.count t = 1 := by
  have hsplit : s1 ++ t :: s2 = (s1 ++ [t]) ++ s2 := by simp
  rw [hsplit, runRequests_append]
  have hScard : (s2.toFinset : Finset String).card ≤ 99 := by
    rw [List.card_toFinset]
    omega
  have hinv : CacheInv p t s2.toFinset
      (runRequests p (runRequests p initState (s1 ++ [t])) s2) :=
    cacheInv_runRequests p t s2.toFinset hScard s2 _
      (fun u hu _ => List.mem_toFinset.mpr hu)
      (cacheInv_establish p t s2.toFinset s1 h1)
  obtain ⟨hnd, hct, front, back, hdec, hfront⟩ := hinv
  have hget := get_at_memoized p _ t front back hdec fun e he => (hfront e he).1
  exact ⟨hget.1, hget.2, hct⟩

/-- Witness for C4 at a concrete run. -/
theorem lru_repeated_request_single_call_witness :
    (get_cached_embedding (fun _ => [(1 : ℚ)])
        (runRequests (fun _ => [(1 : ℚ)]) initState ([] ++ "b" :: ["a"])) "b").1
      = (fun _ => [(1 : ℚ)]) "b" ∧
    (get_cached_embedding (fun _ => [(1 : ℚ)])
        (runRequests (fun _ => [(1 : ℚ)]) initState ([] ++ "b" :: ["a"])) "b").2.calls
      = (runRequests (fun _ => [(1 : ℚ)]) initState ([] ++ "b" :: ["a"])).calls ∧
    (runRequests (fun _ => [(1 : ℚ)]) initState ([] ++ "b" :: ["a"])).calls.count "b" = 1 :=
  lru_repeated_request_single_call (fun _ => [(1 : ℚ)]) [] ["a"] "b" (by decide) (by decide)

/-- C5: for a registered hotel id, batch analysis succeeds and returns
the hotel record, the rendered hotel text, the threshold in use, and
per-review results for exactly the registered normal reviews and
exactly the registered anomalous reviews, each in registration order
(the result lists project back to the registered lists). -/
theorem analyze_returns_registered_reviews (p : String → List ℚ) (threshold : ℚ)
    (st : CacheState) (hid : String) (hotel : Hotel) (hwf : CacheWF p st)
    (hdim : ∀ s1 s2 : String, (p s1).length = (p s2).length)
    (hlk : List.lookup hid HOTEL_DATA = some hotel) :
    (reportOf (analyze_hotel_reviews p threshold st hid)).map AnalysisReport.hotel
        = some hotel ∧
    (reportOf (analyze_hotel_reviews p threshold st hid)).map AnalysisReport.hotel_text
        = some (hotel_text_analyze hotel) ∧
    (reportOf (analyze_hotel_reviews p threshold st hid)).map AnalysisReport.threshold
        = some threshold ∧
    (reportOf (analyze_hotel_reviews p threshold st hid)).map
        (fun rep => rep.normal_reviews.map ReviewResult.review)
        = some ((List.lookup hid REVIEWS_DATASET).getD []) ∧
    (reportOf (analyze_hotel_reviews p threshold st hid)).map
        (fun rep => rep.anomalous_reviews.map ReviewResult.review)
        = some ((List.lookup hid ANOMALOUS_REVIEWS).getD []) := by
  have hval : (get_cached_embedding p st (hotel_text_analyze hotel)).1
      = p (hotel_text_analyze hotel) :=
    get_cached_embedding_val p st _ hwf
  have hwf1 : CacheWF p (get_cached_embedding p st (hotel_text_analyze hotel)).2 :=
    cacheWF_get p st _ hwf
  obtain ⟨rn, st2, hN, hmapN, hwf2⟩ :=
    analyzeList_ok p threshold (get_cached_embedding p st (hotel_text_analyze hotel)).1
      ((List.lookup hid REVIEWS_DATASET).getD [])
      (get_cached_embedding p st (hotel_text_analyze hotel)).2 hwf1
      (fun r _ => by rw [hval]; exact hdim r (hotel_text_analyze hotel))
  obtain ⟨ra, st3, hA, hmapA, hwf3⟩ :=
    analyzeList_ok p threshold (get_cached_embedding p st (hotel_text_analyze hotel)).1
      ((List.lookup hid ANOMALOUS_REVIEWS).getD []) st2 hwf2
      (fun r _ => by rw [hval]; exact hdim r (hotel_text_analyze hotel))
  unfold analyze_hotel_reviews
  rw [hlk]
  simp only [hN, hA, reportOf, Option.map_some]
  exact ⟨rfl, rfl, rfl, by simp [hmapN], by simp [hmapA]⟩

/-- Witness for C5: batch analysis of `hotel_1` from the initial cache
with a constant one-dimensional provider. -/
theorem analyze_returns_registered_reviews_witness :
    (reportOf (analyze_hotel_reviews (fun _ => [(1 : ℚ)]) (3 / 4) initState "hotel_1")).map
        AnalysisReport.hotel = some ((List.lookup "hotel_1" HOTEL_DATA).getD default) ∧
    (reportOf (analyze_hotel_reviews (fun _ => [(1 : ℚ)]) (3 / 4) initState "hotel_1")).map
        AnalysisReport.hotel_text
        = some (hotel_text_analyze ((List.lookup "hotel_1" HOTEL_DATA).getD default)) ∧
    (reportOf (analyze_hotel_reviews (fun _ => [(1 : ℚ)]) (3 / 4) initState "hotel_1")).map
        AnalysisReport.threshold = some (3 / 4) ∧
    (reportOf (analyze_hotel_reviews (fun _ => [(1 : ℚ)]) (3 / 4) initState "hotel_1")).map
        (fun rep => rep.normal_reviews.map ReviewResult.review)
        = some ((List.lookup "hotel_1" REVIEWS_DATASET).getD []) ∧
    (reportOf (analyze_hotel_reviews (fun _ => [(1 : ℚ)]) (3 / 4) initState "hotel_1")).map
        (fun rep => rep.anomalous_reviews.map ReviewResult.review)
        = some ((List.lookup "hotel_1" ANOMALOUS_REVIEWS).getD []) :=
  analyze_returns_registered_reviews (fun _ => [(1 : ℚ)]) (3 / 4) initState "hotel_1"
    ((List.lookup "hotel_1" HOTEL_DATA).getD default) (cacheWF_init _) (fun _ _ => rfl)
    (by decide)

/-- C6, counterexample: the empty-string id is not a key of
`HOTEL_DATA`, yet the custom-review operation answers it with the
invalid-request response (HTTP 400), not the not-found response
(HTTP 404) the claim requires for every id absent from the table. -/
theorem empty_id_not_found_gets_bad_request :
    List.lookup "" HOTEL_DATA = none ∧
    custom_review (fun _ => [(1 : ℚ)]) (3 / 4) initState (some "") (some "Отличный отель")
      = (.badRequest, initState) ∧
    CustomResponse.badRequest ≠ CustomResponse.notFound := by
  refine ⟨by decide, by decide, by decide⟩

/-- C6 (amended): for every *non-empty* entity id absent from the hotel
table (with a non-empty review text in the custom case), batch analysis
returns no report (the route's 404) and the custom-review operation
returns the not-found response, in both cases leaving the cache — and
hence the provider-call log — untouched; the empty-string id is instead
rejected earlier as an invalid request. -/
theorem unknown_hotel_not_found (p : String → List ℚ) (threshold : ℚ) (st : CacheState)
    (hid rt : String) (hhid : hid ≠ "") (hrt : rt ≠ "")
    (hlk : List.lookup hid HOTEL_DATA = none) :
    analyze_hotel_reviews p threshold st hid = (.ok none, st) ∧
    custom_review p threshold st (some hid) (some rt) = (.notFound, st) := by
  constructor
  · unfold analyze_hotel_reviews
    rw [hlk]
  · unfold custom_review
    have hf1 : falsy (some hid) = false := by
      simp only [falsy]
      rw [Bool.eq_false_iff]
      intro hcon
      exact hhid ((String.isEmpty_iff hid).mp hcon)
    have hf2 : falsy (some rt) = false := by
      simp only [falsy]
      rw [Bool.eq_false_iff]
      intro hcon
      exact hrt ((String.isEmpty_iff rt).mp hcon)
    rw [hf1, hf2]
    simp only [Option.getD_some]
    rw [hlk]
    rfl

/-- Witness for C6 (amended) at a concrete unknown id. -/
theorem unknown_hotel_not_found_witness :
    analyze_hotel_reviews (fun _ => [(1 : ℚ)]) (3 / 4) initState "hotel_99"
      = (.ok none, initState) ∧
    custom_review (fun _ => [(1 : ℚ)]) (3 / 4) initState (some "hotel_99") (some "Хорошо")
      = (.notFound, initState) :=
  unknown_hotel_not_found (fun _ => [(1 : ℚ)]) (3 / 4) initState "hotel_99" "Хорошо"
    (by decide) (by decide) (by decide)

/-- C7: a custom-review request whose `hotel_id` or `review_text` field
is missing (Python-falsy) is answered with the invalid-request response
(HTTP 400) and the cache state — including the provider-call log — is
untouched: no embedding and no similarity is computed. -/
theorem missing_field_bad_request (p : String → List ℚ) (threshold : ℚ) (st : CacheState)
    (hid rt : Option String) (h : falsy hid = true ∨ falsy rt = true) :
    custom_review p threshold st hid rt = (.badRequest, st) ∧
    (custom_review p threshold st hid rt).2.calls = st.calls := by
  have hcond : (falsy hid || falsy rt) = true := by
    rcases h with h | h <;> simp [h]
  constructor
  · unfold custom_review
    rw [if_pos hcond]
  · unfold custom_review
    rw [if_pos hcond]

/-- Witness for C7: a request with no `hotel_id` field. -/
theorem missing_field_bad_request_witness :
    custom_review (fun _ => [(1 : ℚ)]) (3 / 4) initState none (some "Хорошо")
      = (.badRequest, initState) ∧
    (custom_review (fun _ => [(1 : ℚ)]) (3 / 4) initState none (some "Хорошо")).2.calls
      = initState.calls :=
  missing_field_bad_request (fun _ => [(1 : ℚ)]) (3 / 4) initState none (some "Хорошо")
    (Or.inl rfl)

/-- C8: the memo table never holds more than 100 entries, whatever the
request sequence; and when a miss occurs on a full table the new entry
is inserted and exactly the least-recently-used (last-positioned) entry
is dropped — a deterministic eviction. -/
theorem cache_bounded_lru_eviction :
    (∀ (p : String → List ℚ) (ts : List String),
      (runRequests p initState ts).entries.length ≤ CACHE_MAXSIZE) ∧
    (∀ (p : String → List ℚ) (st : CacheState) (u : String),
      st.entries.length = CACHE_MAXSIZE →
      st.entries.find? (fun e => e.1 == u) = none →
      (get_cached_embedding p st u).2.entries = (u, p u) :: st.entries.dropLast) := by
  constructor
  · intro p ts
    exact entries_length_runRequests_le p ts initState (by simp [initState])
  · intro p st u hlen hf
    have hstep : (get_cached_embedding p st u).2 =
        ⟨((u, p u) :: st.entries).take CACHE_MAXSIZE, st.calls ++ [u]⟩ := by
      unfold get_cached_embedding
      rw [hf]
    rw [hstep]
    show List.take CACHE_MAXSIZE ((u, p u) :: st.entries) = _
    rw [show CACHE_MAXSIZE = 99 + 1 from rfl, List.take_succ_cons,
      List.dropLast_eq_take, hlen]
    rfl

/-- Witness for C8: a full 100-entry table evicting its oldest entry. -/
theorem cache_bounded_lru_eviction_witness :
    (runRequests (fun _ => ([] : List ℚ)) initState ["a", "b"]).entries.length
      ≤ CACHE_MAXSIZE ∧
    (get_cached_embedding (fun _ => ([] : List ℚ))
        ⟨(List.range 100).map fun i => (Nat.repr i, []), []⟩ "zzz").2.entries
      = ("zzz", []) ::
        (⟨(List.range 100).map fun i => (Nat.repr i, []), []⟩ : CacheState).entries.dropLast :=
  ⟨cache_bounded_lru_eviction.1 _ _,
   cache_bounded_lru_eviction.2 (fun _ => ([] : List ℚ))
     ⟨(List.range 100).map fun i => (Nat.repr i, []), []⟩ "zzz" (by decide) (by decide)⟩

/-- C9: cosine similarity is symmetric on equal-length vectors of
non-zero norm (indeed the embedded function is symmetric even without
the preconditions). -/
theorem cosine_similarity_symm (a b : List ℚ) (hlen : a.length = b.length)
    (_ha : normSq a ≠ 0) (_hb : normSq b ≠ 0) :
    cosine_similarity a b = cosine_similarity b a := by
  unfold cosine_similarity
  rw [hlen, dot_comm, mul_comm (normSq a) (normSq b)]

/-- Witness for C9 at concrete vectors. -/
theorem cosine_similarity_symm_witness :
    cosine_similarity [(1 : ℚ), 2] [2, 1] = cosine_similarity [(2 : ℚ), 1] [1, 2] := by
  refine cosine_similarity_symm [(1 : ℚ), 2] [(2 : ℚ), 1] rfl ?_ ?_ <;>
    norm_num [normSq, dot]

/-- C10: an empty-string `hotel_id` or `review_text` is treated exactly
like a missing field: the request is answered with the invalid-request
response before the hotel lookup and before any provider call (the
response and final state coincide with those for the missing field, the
cache is untouched, and this happens even for a registered hotel id). -/
theorem empty_field_rejected_like_missing (p : String → List ℚ) (threshold : ℚ)
    (st : CacheState) (hid rt : Option String) :
    custom_review p threshold st (some "") rt = (.badRequest, st) ∧
    custom_review p threshold st hid (some "") = (.badRequest, st) ∧
    custom_review p threshold st (some "") rt = custom_review p threshold st none rt ∧
    custom_review p threshold st hid (some "") = custom_review p threshold st hid none ∧
    (custom_review p threshold st (some "") rt).2.calls = st.calls ∧
    custom_review p threshold st (some "hotel_1") (some "") = (.badRequest, st) := by
  have hfe : falsy (some "") = true := rfl
  have hfn : falsy none = true := rfl
  refine ⟨?_, ?_, ?_, ?_, ?_, ?_⟩ <;>
    simp [custom_review, hfe, hfn]

end HotelApp

